import Mathlib

/-!
Verification development for the novel-finder frontier pipeline.

Shallow embedding of the Rust sources:
  * `src/models.rs`   — domain records (`Novel`, `Review`, `Criteria`,
    `NovelScore`, `StopCondition`).  The Rust `f64` fields (`rating`,
    `overall_score`, review `rating`) are modelled as `ℚ`: the program only
    ever compares these values, and on the non-NaN floats the program
    manipulates, comparison is order-isomorphic to the rationals.
    `HashMap<String, f64>` is modelled as an association list and
    `HashSet<u64>` as a list of ids queried by membership.
  * `src/queue.rs`    — `NovelQueue` with permanent dedup.
  * `src/eval/filter.rs` — `passes_hard_filters`.
  * `src/eval/local.rs`, `src/eval/llm.rs` — the two evaluator strategies.
    Both `evaluate` bodies are `todo!()` in the source (they abort
    unconditionally); a `todo!()` abort is modelled as `Except.error`.
  * `src/scraper/reviews.rs` — `parse_reviews_from_html`.  The HTML / CSS
    selector machinery is an external library; a `div.review` element is
    abstracted as the record of the four `Option` values that the source's
    `extract_review_author/rating/text/date` helpers produce for it, and
    the loop of `parse_reviews_from_html` is embedded verbatim over that
    abstraction.
  * `src/pipeline.rs` — the processing loop of `Pipeline::run` and
    `Pipeline::should_stop`.  Network-dependent collaborators
    (review scraping, evaluation, discovery) are oracles supplied in a
    `PipelineEnv`; wall-clock time is an oracle giving the elapsed duration
    observed at each stop-condition check.  The Rust `while let` loop is
    embedded as fuel-indexed structural recursion.
-/

namespace NovelFinder

/-- Publication status of a novel (`NovelStatus` in `src/models.rs`). -/
inductive NovelStatus where
  | Ongoing
  | Completed
  | Hiatus
  | Dropped
  | Stub
deriving DecidableEq, Repr

/-- A novel with its scraped metadata (`Novel` in `src/models.rs`). -/
structure Novel where
  id : Nat
  title : String
  author : String
  url : String
  description : String
  pages : Nat
  rating : ℚ
  status : NovelStatus
  tags : List String
  chapter_count : Nat
  chapter_titles : List String
  followers : Nat
  favorites : Nat
deriving DecidableEq, Repr

/-- A user review of a novel (`Review` in `src/models.rs`). -/
structure Review where
  author : String
  rating : ℚ
  text : String
  posted_date : String
deriving DecidableEq, Repr

/-- User-defined evaluation criteria (`Criteria` in `src/models.rs`). -/
structure Criteria where
  prompt : Option String
  min_pages : Option Nat
  max_pages : Option Nat
  min_rating : Option ℚ
  allowed_statuses : Option (List NovelStatus)
  required_tags : Option (List String)
  excluded_tags : Option (List String)
deriving DecidableEq, Repr

/-- Result of evaluating a novel (`NovelScore` in `src/models.rs`). -/
structure NovelScore where
  novel : Novel
  overall_score : ℚ
  sub_scores : List (String × ℚ)
  reasoning : String
deriving DecidableEq, Repr

/-- Stop condition for the pipeline (`StopCondition` in `src/models.rs`).
Durations are modelled in milliseconds as `Nat`. -/
inductive StopCondition where
  | MaxNovels (max : Nat)
  | MaxTime (duration : Nat)
  | EmptyQueue
deriving DecidableEq, Repr

/-- The deduplicating FIFO queue (`NovelQueue` in `src/queue.rs`).
`queue` is the `VecDeque<Novel>`; `seen` models the `HashSet<u64>` of ids. -/
structure NovelQueue where
  queue : List Novel
  seen : List Nat
deriving DecidableEq, Repr

namespace NovelQueue

/-- `NovelQueue::new` — empty queue, empty seen set. -/
def new : NovelQueue := { queue := [], seen := [] }

/-- `NovelQueue::push` — admit the novel at the tail unless its id has been
seen; returns the Rust `bool` paired with the updated queue. -/
def push (q : NovelQueue) (novel : Novel) : Bool × NovelQueue :=
  if q.seen.contains novel.id then
    (false, q)
  else
    (true, { queue := q.queue ++ [novel], seen := novel.id :: q.seen })

/-- `NovelQueue::pop` — remove and return the head (FIFO). -/
def pop (q : NovelQueue) : Option Novel × NovelQueue :=
  match q.queue with
  | [] => (none, q)
  | n :: rest => (some n, { q with queue := rest })

/-- `NovelQueue::is_empty`. -/
def is_empty (q : NovelQueue) : Bool := q.queue.isEmpty

/-- `NovelQueue::len`. -/
def len (q : NovelQueue) : Nat := q.queue.length

/-- `NovelQueue::has_seen`. -/
def has_seen (q : NovelQueue) (novel_id : Nat) : Bool := q.seen.contains novel_id

end NovelQueue

/-- First block of `passes_hard_filters` (`src/eval/filter.rs`): reject when
`novel.pages < min_pages`. -/
def min_pages_ok (novel : Novel) (criteria : Criteria) : Bool :=
  match criteria.min_pages with
  | some min_pages => ! decide (novel.pages < min_pages)
  | none => true

/-- Second block: reject when `novel.pages > max_pages`. -/
def max_pages_ok (novel : Novel) (criteria : Criteria) : Bool :=
  match criteria.max_pages with
  | some max_pages => ! decide (novel.pages > max_pages)
  | none => true

/-- Third block: reject when `novel.rating < min_rating`. -/
def min_rating_ok (novel : Novel) (criteria : Criteria) : Bool :=
  match criteria.min_rating with
  | some min_rating => ! decide (novel.rating < min_rating)
  | none => true

/-- Fourth block: reject when the allow-list is present, non-empty, and does
not contain the novel's status. -/
def status_ok (novel : Novel) (criteria : Criteria) : Bool :=
  match criteria.allowed_statuses with
  | some allowed => !(!allowed.isEmpty && !allowed.contains novel.status)
  | none => true

/-- Fifth block: every required tag must match some novel tag,
case-insensitively. -/
def required_tags_ok (novel : Novel) (criteria : Criteria) : Bool :=
  match criteria.required_tags with
  | some required =>
      required.all fun tag => novel.tags.any fun t => t.toLower == tag.toLower
  | none => true

/-- Sixth block: no excluded tag may match any novel tag,
case-insensitively. -/
def excluded_tags_ok (novel : Novel) (criteria : Criteria) : Bool :=
  match criteria.excluded_tags with
  | some excluded =>
      excluded.all fun tag => !(novel.tags.any fun t => t.toLower == tag.toLower)
  | none => true

/-- `passes_hard_filters` (`src/eval/filter.rs`): the source is a sequence of
early-`return false` blocks; as a boolean it is the short-circuit conjunction
of the six blocks in source order. -/
def passes_hard_filters (novel : Novel) (criteria : Criteria) : Bool :=
  min_pages_ok novel criteria &&
  max_pages_ok novel criteria &&
  min_rating_ok novel criteria &&
  status_ok novel criteria &&
  required_tags_ok novel criteria &&
  excluded_tags_ok novel criteria

/-- The local evaluator (`LocalEvaluator` in `src/eval/local.rs`): a unit
struct. -/
structure LocalEvaluator where
deriving DecidableEq, Repr

/-- `LocalEvaluator::new`. -/
def LocalEvaluator.new : LocalEvaluator := {}

/-- `LocalEvaluator::evaluate` (`src/eval/local.rs`, lines 27-47): the body is
`todo!("Implement local keyword-based scoring")`, which aborts unconditionally
for every input; the abort is modelled as `Except.error` carrying the panic
message. -/
def LocalEvaluator.evaluate (_self : LocalEvaluator) (_novel : Novel)
    (_reviews : List Review) (_criteria : Criteria) : Except String NovelScore :=
  Except.error "not yet implemented: Implement local keyword-based scoring"

/-- `LocalEvaluator::pre_filter` — delegates to `passes_hard_filters`. -/
def LocalEvaluator.pre_filter (_self : LocalEvaluator) (novel : Novel)
    (criteria : Criteria) : Bool :=
  passes_hard_filters novel criteria

/-- The LLM evaluator (`LlmEvaluator` in `src/eval/llm.rs`). -/
structure LlmEvaluator where
  api_key : String
  model : String
  endpoint : String
deriving DecidableEq, Repr

/-- `LlmEvaluator::new`. -/
def LlmEvaluator.new (api_key model endpoint : String) : LlmEvaluator :=
  { api_key := api_key, model := model, endpoint := endpoint }

/-- `LlmEvaluator::evaluate` (`src/eval/llm.rs`, lines 40-70): the body is
`todo!("Implement LLM-based evaluation via API call")`, modelled as an
unconditional `Except.error`. -/
def LlmEvaluator.evaluate (_self : LlmEvaluator) (_novel : Novel)
    (_reviews : List Review) (_criteria : Criteria) : Except String NovelScore :=
  Except.error "not yet implemented: Implement LLM-based evaluation via API call"

/-- `LlmEvaluator::pre_filter` — delegates to `passes_hard_filters`. -/
def LlmEvaluator.pre_filter (_self : LlmEvaluator) (novel : Novel)
    (criteria : Criteria) : Bool :=
  passes_hard_filters novel criteria

/-- One `div.review` element of a novel page, abstracted as the four
`Option` results that `extract_review_author`, `extract_review_rating`,
`extract_review_text` and `extract_review_date` (`src/scraper/reviews.rs`)
produce for it. -/
structure ReviewElement where
  author : Option String
  rating : Option ℚ
  text : Option String
  posted_date : Option String
deriving DecidableEq, Repr

/-- The `for review_el in document.select(..)` loop of
`parse_reviews_from_html` (`src/scraper/reviews.rs`, lines 40-61):
break once `reviews.len() >= max_reviews`; push a `Review` only when all four
extracted fields are present, otherwise silently skip the element. -/
def parse_reviews_loop : List ReviewElement → List Review → Nat → List Review
  | [], reviews, _ => reviews
  | el :: rest, reviews, max_reviews =>
    if reviews.length ≥ max_reviews then
      reviews
    else
      match el.author, el.rating, el.text, el.posted_date with
      | some author, some rating, some text, some posted_date =>
          parse_reviews_loop rest
            (reviews ++ [{ author := author, rating := rating, text := text,
                           posted_date := posted_date }]) max_reviews
      | _, _, _, _ => parse_reviews_loop rest reviews max_reviews

/-- `parse_reviews_from_html` (`src/scraper/reviews.rs`, lines 33-64): the
document is abstracted as its list of `div.review` elements (an input with no
review markup is the empty list); the function always returns `Ok`. -/
def parse_reviews_from_html (elements : List ReviewElement) (max_reviews : Nat) :
    Except String (List Review) :=
  Except.ok (parse_reviews_loop elements [] max_reviews)

/-- Collaborators and configuration used by the processing loop of
`Pipeline::run` (`src/pipeline.rs`).  `pre_filter` is the active evaluator
strategy's pre-filter; `scrape_reviews`, `evaluate` and `discovery` are the
network-backed collaborators as oracles; `elapsed_at k` is the wall-clock
duration `start_time.elapsed()` observed at the k-th stop-condition check. -/
structure PipelineEnv where
  criteria : Criteria
  stop_condition : StopCondition
  pre_filter : Novel → Criteria → Bool
  scrape_reviews : Nat → Nat → Except String (List Review)
  evaluate : Novel → List Review → Criteria → Except String NovelScore
  discovery : Option (Novel → Except String (List Novel))
  elapsed_at : Nat → Nat

/-- `Pipeline::should_stop` (`src/pipeline.rs`, lines 173-179). -/
def should_stop (env : PipelineEnv) (results : List NovelScore) (elapsed : Nat) :
    Bool :=
  match env.stop_condition with
  | StopCondition.MaxNovels max => decide (results.length ≥ max)
  | StopCondition.MaxTime duration => decide (elapsed ≥ duration)
  | StopCondition.EmptyQueue => false

/-- The `for discovered_novel in discovered` loop of `Pipeline::run`
(lines 117-119): push every discovered novel, dedup handled by the queue. -/
def push_all (q : NovelQueue) (novels : List Novel) : NovelQueue :=
  novels.foldl (fun q n => (q.push n).2) q

/-- The `while let Some(novel) = self.queue.pop()` loop of `Pipeline::run`
(`src/pipeline.rs`, lines 83-130), as fuel-indexed recursion.  Each iteration:
pop the head (the loop exits when the queue is empty); check `should_stop` and
break if it fires; skip the candidate when `pre_filter` fails; otherwise fetch
reviews (cap 10) and evaluate, propagating either error; append the score;
run discovery if configured, pushing discoveries on success and continuing
with a warning on failure.  Returns the accumulated results together with the
final queue state; exhausted fuel (never reached for terminating runs when
enough fuel is supplied) returns the state reached so far. -/
def run_loop (env : PipelineEnv) :
    Nat → NovelQueue → List NovelScore → Nat →
    Except String (List NovelScore × NovelQueue)
  | 0, q, results, _ => Except.ok (results, q)
  | fuel + 1, q, results, iter =>
    match q.pop with
    | (none, q') => Except.ok (results, q')
    | (some novel, q') =>
      if should_stop env results (env.elapsed_at iter) then
        Except.ok (results, q')
      else if ! env.pre_filter novel env.criteria then
        run_loop env fuel q' results (iter + 1)
      else
        match env.scrape_reviews novel.id 10 with
        | Except.error e => Except.error e
        | Except.ok reviews =>
          match env.evaluate novel reviews env.criteria with
          | Except.error e => Except.error e
          | Except.ok score =>
            match env.discovery with
            | none => run_loop env fuel q' (results ++ [score]) (iter + 1)
            | some discover =>
              match discover novel with
              | Except.ok discovered =>
                  run_loop env fuel (push_all q' discovered) (results ++ [score])
                    (iter + 1)
              | Except.error _ =>
                  run_loop env fuel q' (results ++ [score]) (iter + 1)

/-- The result sort of `Pipeline::run` (`src/pipeline.rs`, lines 132-137):
`results.sort_by(|a, b| b.overall_score.partial_cmp(&a.overall_score)...)`.
Rust's `sort_by` is a stable sort ordered by the comparator; with comparator
`cmp(b.overall_score, a.overall_score)` the element `a` precedes `b` exactly
when `b.overall_score ≤ a.overall_score` (descending).  A stable sort under a
total preorder has a unique result, so the stable `List.mergeSort` with that
relation embeds it faithfully. -/
def sort_results (results : List NovelScore) : List NovelScore :=
  results.mergeSort fun a b => decide (b.overall_score ≤ a.overall_score)

/-- The processing-and-sort phase of `Pipeline::run` (`src/pipeline.rs`,
lines 80-141): run the loop from the seeded queue, then sort the accumulated
results by overall score descending. -/
def pipeline_run (env : PipelineEnv) (fuel : Nat) (seeded : NovelQueue) :
    Except String (List NovelScore) :=
  (run_loop env fuel seeded [] 0).map fun p => sort_results p.1

/-- Criteria with every field unset. -/
def empty_criteria : Criteria :=
  { prompt := none, min_pages := none, max_pages := none, min_rating := none,
    allowed_statuses := none, required_tags := none, excluded_tags := none }

/-- A concrete well-formed novel, parameterised by id, for witnesses. -/
def sample_novel (i : Nat) : Novel :=
  { id := i, title := "Bunny Girl Evolution", author := "Bedivere the Mad",
    url := "https://www.royalroad.com/fiction/90435", description := "a story",
    pages := 391, rating := 4, status := NovelStatus.Ongoing,
    tags := ["LitRPG", "Fantasy"], chapter_count := 2,
    chapter_titles := ["1 - Rabbit", "2 - Burrow"], followers := 6475,
    favorites := 1808 }

/-- A single operation on the frontier queue, for stating lifetime
invariants over arbitrary operation sequences. -/
inductive QueueOp where
  | push (novel : Novel)
  | pop
deriving Repr

/-- Apply one queue operation, discarding the returned value. -/
def apply_op (q : NovelQueue) : QueueOp → NovelQueue
  | QueueOp.push n => (q.push n).2
  | QueueOp.pop => q.pop.2

/-- Apply a sequence of queue operations in order. -/
def apply_ops (q : NovelQueue) (ops : List QueueOp) : NovelQueue :=
  ops.foldl apply_op q

/-- Pushing a novel whose id is already seen returns `false` and leaves the
queue untouched (`src/queue.rs`, lines 32-40). -/
theorem push_of_seen (q : NovelQueue) (n : Novel)
    (h : q.has_seen n.id = true) : (q.push n).1 = false ∧ (q.push n).2 = q := by
  unfold NovelQueue.has_seen at h
  have hm : n.id ∈ q.seen := by simpa using h
  unfold NovelQueue.push
  simp [hm]

/-- After any push, the pushed id is seen. -/
theorem has_seen_push (q : NovelQueue) (n : Novel) :
    ((q.push n).2).has_seen n.id = true := by
  unfold NovelQueue.push NovelQueue.has_seen
  by_cases h : n.id ∈ q.seen
  · simp [h]
  · simp [h]

/-- No single queue operation ever removes an id from the seen set. -/
theorem has_seen_apply_op (q : NovelQueue) (op : QueueOp) (i : Nat)
    (h : q.has_seen i = true) : (apply_op q op).has_seen i = true := by
  cases op with
  | push n =>
    unfold NovelQueue.has_seen at h
    have hm : i ∈ q.seen := by simpa using h
    unfold apply_op NovelQueue.push NovelQueue.has_seen
    by_cases hc : n.id ∈ q.seen
    · simp [hc, hm]
    · simp [hc, hm]
  | pop =>
    unfold NovelQueue.has_seen at h
    unfold apply_op NovelQueue.pop NovelQueue.has_seen
    cases hq : q.queue with
    | nil => simpa [hq] using h
    | cons a rest => simpa [hq] using h

/-- No sequence of queue operations ever removes an id from the seen set. -/
theorem has_seen_apply_ops (ops : List QueueOp) (q : NovelQueue) (i : Nat)
    (h : q.has_seen i = true) : (apply_ops q ops).has_seen i = true := by
  induction ops generalizing q with
  | nil => exact h
  | cons op rest ih => exact ih (apply_op q op) (has_seen_apply_op q op i h)

/-- C2: frontier deduplication is permanent.  (1) After pushing a novel its id
is seen; (2) once seen, an id stays seen across every sequence of pushes and
pops, in particular after the novel is popped; (3) pushing while the id is
seen returns `false` and changes nothing; (4) hence for every queue, every
later push of a novel carrying an id that was ever pushed before returns
`false` — the id is admitted exactly once overall. -/
theorem C2_dedup_permanent :
    (∀ (q : NovelQueue) (n : Novel), ((q.push n).2).has_seen n.id = true) ∧
    (∀ (q : NovelQueue) (ops : List QueueOp) (i : Nat),
      q.has_seen i = true → (apply_ops q ops).has_seen i = true) ∧
    (∀ (q : NovelQueue) (n : Novel),
      q.has_seen n.id = true → (q.push n).1 = false ∧ (q.push n).2 = q) ∧
    (∀ (q : NovelQueue) (n : Novel) (ops : List QueueOp) (m : Novel),
      m.id = n.id → ((apply_ops (q.push n).2 ops).push m).1 = false) := by
  refine ⟨has_seen_push, fun q ops i h => has_seen_apply_ops ops q i h,
    push_of_seen, fun q n ops m hm => ?_⟩
  have hseen : (apply_ops (q.push n).2 ops).has_seen m.id = true := by
    rw [hm]
    exact has_seen_apply_ops ops (q.push n).2 n.id (has_seen_push q n)
  exact (push_of_seen _ m hseen).1

/-- C2 witness: push a concrete novel into the empty queue, pop it, and
observe that its id is still seen and a second push of the same id is
rejected. -/
theorem C2_dedup_permanent_witness :
    ((apply_ops (NovelQueue.new.push (sample_novel 1)).2 [QueueOp.pop]).has_seen
      (sample_novel 1).id = true) ∧
    ((apply_ops (NovelQueue.new.push (sample_novel 1)).2 [QueueOp.pop]).push
      (sample_novel 1)).1 = false := by
  refine ⟨?_, ?_⟩
  · exact C2_dedup_permanent.2.1 (NovelQueue.new.push (sample_novel 1)).2
      [QueueOp.pop] (sample_novel 1).id
      (C2_dedup_permanent.1 NovelQueue.new (sample_novel 1))
  · exact C2_dedup_permanent.2.2.2 NovelQueue.new (sample_novel 1) [QueueOp.pop]
      (sample_novel 1) rfl

/-- C10: pushing a duplicate id returns `false` and leaves both the pending
queue (order and elements) and the seen set exactly as they were. -/
theorem C10_push_duplicate_frame (q : NovelQueue) (n : Novel)
    (h : q.has_seen n.id = true) :
    (q.push n).1 = false ∧ (q.push n).2.queue = q.queue ∧
    (q.push n).2.seen = q.seen := by
  unfold NovelQueue.has_seen at h
  have hm : n.id ∈ q.seen := by simpa using h
  unfold NovelQueue.push
  simp [hm]

/-- C10 witness: a concrete queue that has already seen id 1 rejects a second
novel with id 1 and is left unchanged. -/
theorem C10_push_duplicate_frame_witness :
    (({ queue := [sample_novel 2], seen := [1, 2] } : NovelQueue).push
        (sample_novel 1)).1 = false ∧
    (({ queue := [sample_novel 2], seen := [1, 2] } : NovelQueue).push
        (sample_novel 1)).2.queue = [sample_novel 2] ∧
    (({ queue := [sample_novel 2], seen := [1, 2] } : NovelQueue).push
        (sample_novel 1)).2.seen = [1, 2] :=
  C10_push_duplicate_frame { queue := [sample_novel 2], seen := [1, 2] }
    (sample_novel 1) (by decide)

/-- C7: the claim (and the spec) say the heuristic evaluator's `evaluate`
always succeeds on well-formed input, but the source body is
`todo!("Implement local keyword-based scoring")`, which aborts on every
input; evaluated here at a concrete well-formed input. -/
theorem C7_local_evaluate_aborts :
    LocalEvaluator.new.evaluate (sample_novel 1) [] empty_criteria =
      Except.error "not yet implemented: Implement local keyword-based scoring" :=
  rfl

/-- C8: both shipped strategies' pre-filters delegate to the hard filter:
for every novel and criteria they return exactly `passes_hard_filters`, and
are therefore extensionally equal to each other. -/
theorem C8_pre_filters_delegate :
    ∀ (l : LocalEvaluator) (e : LlmEvaluator) (novel : Novel) (criteria : Criteria),
      l.pre_filter novel criteria = passes_hard_filters novel criteria ∧
      e.pre_filter novel criteria = passes_hard_filters novel criteria ∧
      l.pre_filter novel criteria = e.pre_filter novel criteria :=
  fun _ _ _ _ => ⟨rfl, rfl, rfl⟩

/-- C5: with every criteria field unset the hard filter accepts every novel;
each numeric comparison is inclusive at the boundary (pages equal to
`min_pages` or `max_pages`, rating equal to `min_rating`, each pass); and an
empty status allow-list imposes no constraint at all (same result as an
absent allow-list, for every criteria). -/
theorem C5_filter_vacuous_and_inclusive :
    (∀ novel : Novel, passes_hard_filters novel empty_criteria = true) ∧
    (∀ novel : Novel,
      passes_hard_filters novel
        { empty_criteria with min_pages := some novel.pages } = true) ∧
    (∀ novel : Novel,
      passes_hard_filters novel
        { empty_criteria with max_pages := some novel.pages } = true) ∧
    (∀ novel : Novel,
      passes_hard_filters novel
        { empty_criteria with min_rating := some novel.rating } = true) ∧
    (∀ (novel : Novel) (c : Criteria),
      passes_hard_filters novel { c with allowed_statuses := some [] } =
        passes_hard_filters novel { c with allowed_statuses := none }) := by
  refine ⟨fun novel => rfl, fun novel => ?_, fun novel => ?_, fun novel => ?_,
    fun novel c => ?_⟩
  · simp [passes_hard_filters, min_pages_ok, max_pages_ok, min_rating_ok,
      status_ok, required_tags_ok, excluded_tags_ok, empty_criteria]
  · simp [passes_hard_filters, min_pages_ok, max_pages_ok, min_rating_ok,
      status_ok, required_tags_ok, excluded_tags_ok, empty_criteria]
  · simp [passes_hard_filters, min_pages_ok, max_pages_ok, min_rating_ok,
      status_ok, required_tags_ok, excluded_tags_ok, empty_criteria]
  · simp [passes_hard_filters, min_pages_ok, max_pages_ok, min_rating_ok,
      status_ok, required_tags_ok, excluded_tags_ok]

/-- Tightening one dimension of the criteria, every other field unchanged:
raising `min_rating` or `min_pages`, lowering `max_pages`, adding a required
tag, adding an excluded tag, or shrinking a status allow-list while keeping
it non-empty (an allow-list shrunk to empty is "no constraint", hence not a
tightening). -/
inductive Tightens : Criteria → Criteria → Prop where
  | min_pages (c : Criteria) (p q : Nat) (h : p ≤ q) :
      Tightens { c with min_pages := some p } { c with min_pages := some q }
  | max_pages (c : Criteria) (p q : Nat) (h : q ≤ p) :
      Tightens { c with max_pages := some p } { c with max_pages := some q }
  | min_rating (c : Criteria) (r s : ℚ) (h : r ≤ s) :
      Tightens { c with min_rating := some r } { c with min_rating := some s }
  | allowed_statuses (c : Criteria) (l l' : List NovelStatus)
      (hsub : l' ⊆ l) (hne : l' ≠ []) :
      Tightens { c with allowed_statuses := some l }
        { c with allowed_statuses := some l' }
  | required_tags (c : Criteria) (ts : List String) (t : String) :
      Tightens { c with required_tags := some ts }
        { c with required_tags := some (t :: ts) }
  | excluded_tags (c : Criteria) (ts : List String) (t : String) :
      Tightens { c with excluded_tags := some ts }
        { c with excluded_tags := some (t :: ts) }

/-- The hard filter accepts exactly when each of its six blocks accepts. -/
theorem passes_hard_filters_iff (novel : Novel) (criteria : Criteria) :
    passes_hard_filters novel criteria = true ↔
      min_pages_ok novel criteria = true ∧
      max_pages_ok novel criteria = true ∧
      min_rating_ok novel criteria = true ∧
      status_ok novel criteria = true ∧
      required_tags_ok novel criteria = true ∧
      excluded_tags_ok novel criteria = true := by
  simp [passes_hard_filters, Bool.and_eq_true, and_assoc]

/-- A novel passing the tighter criteria also passes the looser ones. -/
theorem passes_of_tightens (novel : Novel) (c c' : Criteria)
    (ht : Tightens c c') (h : passes_hard_filters novel c' = true) :
    passes_hard_filters novel c = true := by
  rw [passes_hard_filters_iff] at h ⊢
  obtain ⟨h1, h2, h3, h4, h5, h6⟩ := h
  cases ht with
  | min_pages c p q hpq =>
    refine ⟨?_, h2, h3, h4, h5, h6⟩
    simp only [min_pages_ok, Bool.not_eq_true', decide_eq_false_iff_not,
      Nat.not_lt] at h1 ⊢
    omega
  | max_pages c p q hqp =>
    refine ⟨h1, ?_, h3, h4, h5, h6⟩
    simp only [max_pages_ok, gt_iff_lt, Bool.not_eq_true',
      decide_eq_false_iff_not, Nat.not_lt] at h2 ⊢
    omega
  | min_rating c r s hrs =>
    refine ⟨h1, h2, ?_, h4, h5, h6⟩
    simp only [min_rating_ok, Bool.not_eq_true', decide_eq_false_iff_not,
      not_lt] at h3 ⊢
    exact le_trans hrs h3
  | allowed_statuses c l l' hsub hne =>
    refine ⟨h1, h2, h3, ?_, h5, h6⟩
    have hmem : novel.status ∈ l' := by
      simp only [status_ok] at h4
      rcases l' with _ | ⟨b, bs⟩
      · exact absurd rfl hne
      · simpa using h4
    have hmem' : novel.status ∈ l := hsub hmem
    simp [status_ok, hmem']
  | required_tags c ts t =>
    refine ⟨h1, h2, h3, h4, ?_, h6⟩
    simp only [required_tags_ok, List.all_cons, Bool.and_eq_true] at h5
    simp only [required_tags_ok]
    exact h5.2
  | excluded_tags c ts t =>
    refine ⟨h1, h2, h3, h4, h5, ?_⟩
    simp only [excluded_tags_ok, List.all_cons, Bool.and_eq_true] at h6
    simp only [excluded_tags_ok]
    exact h6.2

/-- C6: the hard filter is monotone per dimension — a novel rejected under
the looser criteria stays rejected after any single-dimension tightening. -/
theorem C6_filter_monotone (novel : Novel) (c c' : Criteria)
    (ht : Tightens c c') (h : passes_hard_filters novel c = false) :
    passes_hard_filters novel c' = false := by
  cases hb : passes_hard_filters novel c' with
  | false => rfl
  | true =>
    rw [passes_of_tightens novel c c' ht hb] at h
    exact absurd h (by simp)

/-- C6 witness: a novel with rating 3 is rejected at `min_rating = 7/2` and
stays rejected when the bound is raised to 4. -/
theorem C6_filter_monotone_witness :
    passes_hard_filters { sample_novel 1 with rating := 3 }
      { empty_criteria with min_rating := some 4 } = false :=
  C6_filter_monotone { sample_novel 1 with rating := 3 }
    { empty_criteria with min_rating := some (7/2) }
    { empty_criteria with min_rating := some 4 }
    (Tightens.min_rating empty_criteria (7/2) 4 (by norm_num))
    (by
      simp only [passes_hard_filters, min_pages_ok, max_pages_ok, min_rating_ok,
        status_ok, required_tags_ok, excluded_tags_ok, empty_criteria]
      norm_num)

/-- Once the cap is reached the extraction loop adds nothing more. -/
theorem parse_reviews_loop_of_full (els : List ReviewElement) (acc : List Review)
    (max_reviews : Nat) (h : acc.length ≥ max_reviews) :
    parse_reviews_loop els acc max_reviews = acc := by
  cases els with
  | nil => rfl
  | cons el rest => simp [parse_reviews_loop, h]

/-- The extraction loop never exceeds the cap. -/
theorem parse_reviews_loop_length (els : List ReviewElement) (acc : List Review)
    (max_reviews : Nat) (h : acc.length ≤ max_reviews) :
    (parse_reviews_loop els acc max_reviews).length ≤ max_reviews := by
  induction els generalizing acc with
  | nil => simpa [parse_reviews_loop] using h
  | cons el rest ih =>
    by_cases hfull : acc.length ≥ max_reviews
    · simp [parse_reviews_loop, hfull, h]
    · have hlt : acc.length < max_reviews := Nat.lt_of_not_le hfull
      simp only [parse_reviews_loop, hfull, if_false]
      cases ha : el.author with
      | none =>
        cases el.rating <;> cases el.text <;> cases el.posted_date <;>
          simpa [ha] using ih acc h
      | some author =>
        cases hr : el.rating with
        | none =>
          cases el.text <;> cases el.posted_date <;> simpa [ha, hr] using ih acc h
        | some rating =>
          cases htx : el.text with
          | none => cases el.posted_date <;> simpa [ha, hr, htx] using ih acc h
          | some text =>
            cases hd : el.posted_date with
            | none => simpa [ha, hr, htx, hd] using ih acc h
            | some posted_date =>
              have hlen :
                  (acc ++ [(⟨author, rating, text, posted_date⟩ : Review)]).length ≤
                    max_reviews := by
                simp only [List.length_append, List.length_cons,
                  List.length_nil]
                omega
              simpa [ha, hr, htx, hd] using ih _ hlen

/-- An element missing a required field contributes nothing, wherever it sits
in the element list. -/
theorem parse_reviews_loop_skip (bad : ReviewElement)
    (hbad : bad.author = none ∨ bad.rating = none ∨ bad.text = none ∨
      bad.posted_date = none) :
    ∀ (l₁ l₂ : List ReviewElement) (acc : List Review) (max_reviews : Nat),
      parse_reviews_loop (l₁ ++ bad :: l₂) acc max_reviews =
        parse_reviews_loop (l₁ ++ l₂) acc max_reviews := by
  intro l₁
  induction l₁ with
  | nil =>
    intro l₂ acc max_reviews
    by_cases hfull : acc.length ≥ max_reviews
    · rw [List.nil_append, List.nil_append,
        parse_reviews_loop_of_full (bad :: l₂) acc max_reviews hfull,
        parse_reviews_loop_of_full l₂ acc max_reviews hfull]
    · simp only [List.nil_append, parse_reviews_loop, hfull, if_false]
      rcases hbad with hb | hb | hb | hb
      · cases bad.rating <;> cases bad.text <;> cases bad.posted_date <;>
          simp [hb]
      · cases bad.author <;> cases bad.text <;> cases bad.posted_date <;>
          simp [hb]
      · cases bad.author <;> cases bad.rating <;> cases bad.posted_date <;>
          simp [hb]
      · cases bad.author <;> cases bad.rating <;> cases bad.text <;> simp [hb]
  | cons el rest ih =>
    intro l₂ acc max_reviews
    by_cases hfull : acc.length ≥ max_reviews
    · rw [List.cons_append,
        parse_reviews_loop_of_full (el :: (rest ++ bad :: l₂)) acc _ hfull,
        List.cons_append,
        parse_reviews_loop_of_full (el :: (rest ++ l₂)) acc _ hfull]
    · simp only [List.cons_append, parse_reviews_loop, hfull, if_false]
      cases el.author <;> cases el.rating <;> cases el.text <;>
        cases el.posted_date <;> simp [ih]

/-- C9: review extraction is a cap-bounded filter-map over independent
per-element attempts: an element missing any of author, rating, text, or
posted date is silently skipped (removing it from the input changes nothing),
the extraction never fails, the returned list never exceeds the
caller-supplied cap, and a page with no review markup yields `Ok` with the
empty list. -/
theorem C9_review_extraction (l₁ l₂ : List ReviewElement) (bad : ReviewElement)
    (max_reviews : Nat)
    (hbad : bad.author = none ∨ bad.rating = none ∨ bad.text = none ∨
      bad.posted_date = none) :
    parse_reviews_from_html (l₁ ++ bad :: l₂) max_reviews =
      parse_reviews_from_html (l₁ ++ l₂) max_reviews ∧
    (∀ (elements : List ReviewElement) (res : List Review),
      parse_reviews_from_html elements max_reviews = Except.ok res →
        res.length ≤ max_reviews) ∧
    parse_reviews_from_html [] max_reviews = Except.ok [] := by
  refine ⟨?_, ?_, rfl⟩
  · unfold parse_reviews_from_html
    rw [parse_reviews_loop_skip bad hbad l₁ l₂ [] max_reviews]
  · intro elements res hres
    unfold parse_reviews_from_html at hres
    have hok : parse_reviews_loop elements [] max_reviews = res :=
      Except.ok.inj hres
    rw [← hok]
    exact parse_reviews_loop_length elements [] max_reviews (Nat.zero_le _)

/-- C9 witness: a concrete page with one complete review element, one element
missing its rating, and another complete element; dropping the incomplete
element leaves the extraction unchanged. -/
theorem C9_review_extraction_witness :
    parse_reviews_from_html
        [{ author := some "PhantomBuni", rating := some 5, text := some "great",
           posted_date := some "2025-01-07T10:09:50" },
         { author := some "ghost", rating := none, text := some "lost",
           posted_date := some "2025-01-08T00:00:00" },
         { author := some "Kptn", rating := some 3, text := some "mixed",
           posted_date := some "2025-01-09T12:00:00" }] 10 =
      parse_reviews_from_html
        [{ author := some "PhantomBuni", rating := some 5, text := some "great",
           posted_date := some "2025-01-07T10:09:50" },
         { author := some "Kptn", rating := some 3, text := some "mixed",
           posted_date := some "2025-01-09T12:00:00" }] 10 :=
  (C9_review_extraction
    [{ author := some "PhantomBuni", rating := some 5, text := some "great",
       posted_date := some "2025-01-07T10:09:50" }]
    [{ author := some "Kptn", rating := some 3, text := some "mixed",
       posted_date := some "2025-01-09T12:00:00" }]
    { author := some "ghost", rating := none, text := some "lost",
      posted_date := some "2025-01-08T00:00:00" } 10
    (Or.inr (Or.inl rfl))).1

/-- The comparator of the result sort: `a` may precede `b` exactly when
`b.overall_score ≤ a.overall_score`. -/
def score_le (a b : NovelScore) : Bool := decide (b.overall_score ≤ a.overall_score)

/-- The result-sort comparator is transitive. -/
theorem score_le_trans (a b c : NovelScore) (h1 : score_le a b)
    (h2 : score_le b c) : score_le a c = true := by
  simp only [score_le, decide_eq_true_eq] at h1 h2 ⊢
  exact le_trans h2 h1

/-- The result-sort comparator is total. -/
theorem score_le_total (a b : NovelScore) : score_le a b || score_le b a := by
  simp only [score_le]
  rcases le_total a.overall_score b.overall_score with h | h <;> simp [h]

/-- C3: the pipeline's result sort returns a list that is sorted by overall
score descending, and it is stable — for every score value, the sublist of
results carrying that score is exactly the same, in the same order, before
and after sorting. -/
theorem C3_sort_descending_stable (results : List NovelScore) :
    List.Pairwise
      (fun a b : NovelScore => b.overall_score ≤ a.overall_score)
      (sort_results results) ∧
    ∀ q : ℚ,
      (sort_results results).filter (fun r => decide (r.overall_score = q)) =
        results.filter (fun r => decide (r.overall_score = q)) := by
  constructor
  · have hs := List.sorted_mergeSort score_le_trans score_le_total results
    have : sort_results results =
        results.mergeSort score_le := rfl
    rw [this]
    exact hs.imp fun h => by simpa [score_le] using h
  · intro q
    set p : NovelScore → Bool := fun r => decide (r.overall_score = q) with hp
    have hmemp : ∀ r ∈ results.filter p, p r = true := fun r hr =>
      List.of_mem_filter hr
    have hpair : (results.filter p).Pairwise (fun a b => score_le a b = true) := by
      refine List.pairwise_of_forall_mem_list fun a ha b hb => ?_
      have hqa : a.overall_score = q := by
        simpa [hp] using hmemp a ha
      have hqb : b.overall_score = q := by
        simpa [hp] using hmemp b hb
      simp [score_le, hqa, hqb]
    have hsub : List.Sublist (results.filter p) results := List.filter_sublist results
    have h1 : List.Sublist (results.filter p) (results.mergeSort score_le) :=
      List.sublist_mergeSort score_le_trans score_le_total hpair hsub
    have h2 : List.Sublist (results.filter p) ((results.mergeSort score_le).filter p) := by
      have h3 := h1.filter p
      rwa [List.filter_eq_self.mpr hmemp] at h3
    have hperm :
        List.Perm ((results.mergeSort score_le).filter p) (results.filter p) :=
      (List.mergeSort_perm results score_le).filter p
    exact (h2.eq_of_length hperm.length_eq.symm).symm

/-- A concrete pipeline environment: all-unset criteria, `max_novels = 1`,
the shared hard filter as pre-filter, oracles that return no reviews and a
fixed score of 1/2, no discovery, and a clock that never advances. -/
def c1_env : PipelineEnv :=
  { criteria := empty_criteria,
    stop_condition := StopCondition.MaxNovels 1,
    pre_filter := passes_hard_filters,
    scrape_reviews := fun _ _ => Except.ok [],
    evaluate := fun n _ _ =>
      Except.ok { novel := n, overall_score := 1/2, sub_scores := [],
                  reasoning := "" },
    discovery := none,
    elapsed_at := fun _ => 0 }

/-- The score the environment `c1_env` assigns to seed 1. -/
def c1_score : NovelScore :=
  { novel := sample_novel 1, overall_score := 1/2, sub_scores := [],
    reasoning := "" }

/-- A frontier seeded with two novels, ids 1 and 2. -/
def c1_queue : NovelQueue :=
  { queue := [sample_novel 1, sample_novel 2], seen := [1, 2] }

/-- C1 counterexample: under `c1_env` (max_novels = 1) with two seeds, the
stop condition fires at the loop boundary where seed 2 is the head of the
frontier, yet the run exits with an empty frontier: the head was consumed by
the pop of the `while let` before the stop check ran, so it is not still in
the frontier when the loop exits — the claim fails at this input. -/
theorem C1_counterexample :
    run_loop c1_env 10 c1_queue [] 0 =
      Except.ok ([c1_score], { queue := [], seen := [1, 2] }) ∧
    should_stop c1_env [c1_score] (c1_env.elapsed_at 1) = true ∧
    ({ queue := [], seen := [1, 2] } : NovelQueue).queue.contains
      (sample_novel 2) = false :=
  ⟨rfl, rfl, rfl⟩

/-- C1 amended: the stop condition is evaluated once per iteration, but only
after the head of the frontier has been popped; whenever it fires, the loop
exits immediately with the results unchanged and with the frontier equal to
the tail — the popped head has been consumed and is no longer in the
frontier. -/
theorem C1_amended_stop_after_pop (env : PipelineEnv) (fuel : Nat) (n : Novel)
    (rest : List Novel) (seen : List Nat) (results : List NovelScore)
    (iter : Nat) (h : should_stop env results (env.elapsed_at iter) = true) :
    run_loop env (fuel + 1) { queue := n :: rest, seen := seen } results iter =
      Except.ok (results, { queue := rest, seen := seen }) := by
  simp only [run_loop, NovelQueue.pop, h, if_true]

/-- C1 amended witness: with one result already accumulated under `c1_env`,
the stop condition fires, and the loop exits dropping the popped head. -/
theorem C1_amended_stop_after_pop_witness :
    run_loop c1_env (4 + 1) { queue := [sample_novel 2], seen := [1, 2] }
        [c1_score] 1 =
      Except.ok ([c1_score], { queue := [], seen := [1, 2] }) :=
  C1_amended_stop_after_pop c1_env 4 (sample_novel 2) [] [1, 2] [c1_score] 1 rfl

/-- Loop invariant for the `max_novels` stop condition: if at most `N`
results have accumulated, the loop never returns more than `N` results —
each iteration appends a result only after observing `should_stop` false,
i.e. fewer than `N` results. -/
theorem run_loop_max_novels_le (env : PipelineEnv) (N : Nat)
    (hstop : env.stop_condition = StopCondition.MaxNovels N) :
    ∀ (fuel : Nat) (q : NovelQueue) (results : List NovelScore) (iter : Nat)
      (res : List NovelScore × NovelQueue),
      results.length ≤ N →
      run_loop env fuel q results iter = Except.ok res →
      res.1.length ≤ N := by
  intro fuel
  induction fuel with
  | zero =>
    intro q results iter res hlen heq
    simp only [run_loop] at heq
    cases heq
    exact hlen
  | succ fuel ih =>
    intro q results iter res hlen heq
    simp only [run_loop] at heq
    rcases hq : q.pop with ⟨novel?, q'⟩
    rw [hq] at heq
    cases novel? with
    | none =>
      simp only at heq
      cases heq
      exact hlen
    | some novel =>
      simp only at heq
      by_cases hss : should_stop env results (env.elapsed_at iter) = true
      · rw [if_pos hss] at heq
        cases heq
        exact hlen
      · rw [if_neg hss] at heq
        have hlt : results.length < N := by
          rw [should_stop, hstop] at hss
          simpa using Nat.lt_of_not_le (by simpa using hss)
        by_cases hpf : env.pre_filter novel env.criteria = true
        · rw [if_neg (by simp [hpf])] at heq
          cases hsr : env.scrape_reviews novel.id 10 with
          | error e => rw [hsr] at heq; cases heq
          | ok reviews =>
            rw [hsr] at heq
            simp only at heq
            cases hev : env.evaluate novel reviews env.criteria with
            | error e => rw [hev] at heq; cases heq
            | ok score =>
              rw [hev] at heq
              simp only at heq
              have hlen' : (results ++ [score]).length ≤ N := by
                simp only [List.length_append, List.length_cons, List.length_nil]
                omega
              cases hd : env.discovery with
              | none =>
                rw [hd] at heq
                exact ih q' (results ++ [score]) (iter + 1) res hlen' heq
              | some discover =>
                rw [hd] at heq
                simp only at heq
                cases hdr : discover novel with
                | ok discovered =>
                  rw [hdr] at heq
                  exact ih (push_all q' discovered) (results ++ [score])
                    (iter + 1) res hlen' heq
                | error e =>
                  rw [hdr] at heq
                  exact ih q' (results ++ [score]) (iter + 1) res hlen' heq
        · rw [if_pos (by simp [hpf])] at heq
          exact ih q' results (iter + 1) res hlen heq

/-- C4: for a run configured with `max_novels = N`, the returned result list
has length at most `N`. -/
theorem C4_max_novels_bound (env : PipelineEnv) (N fuel : Nat)
    (seeded : NovelQueue) (results : List NovelScore)
    (hstop : env.stop_condition = StopCondition.MaxNovels N)
    (h : pipeline_run env fuel seeded = Except.ok results) :
    results.length ≤ N := by
  unfold pipeline_run at h
  cases hrl : run_loop env fuel seeded [] 0 with
  | error e =>
    rw [hrl] at h
    cases h
  | ok p =>
    rw [hrl] at h
    simp only [Except.map] at h
    have hres : sort_results p.1 = results := Except.ok.inj h
    have hsort : (sort_results p.1).length = p.1.length :=
      List.length_mergeSort p.1
    rw [← hres, hsort]
    exact run_loop_max_novels_le env N hstop fuel seeded [] 0 p
      (Nat.zero_le N) hrl

/-- C4 witness: the concrete `max_novels = 1` run over two seeds returns
exactly one result. -/
theorem C4_max_novels_bound_witness : ([c1_score] : List NovelScore).length ≤ 1 :=
  C4_max_novels_bound c1_env 1 10 c1_queue [c1_score] rfl (by
    have hrl : run_loop c1_env 10 c1_queue [] 0 =
        Except.ok ([c1_score], { queue := [], seen := [1, 2] }) := rfl
    simp [pipeline_run, hrl, Except.map, sort_results])

end NovelFinder
